import Mathlib

/-!
# Verification of the Momentum backtest engine

A shallow embedding of `src/reports/backtest_runner.py` (class
`MomentumBacktester` and the surrounding module) over exact rational
arithmetic, together with theorems settling the specification's claims
about causality, order queueing, FIFO lot accounting, fee handling,
drawdown computation and error behaviour.

Python floats are embedded as `ℚ`; the source's literal constants
(including the `1e-12` tolerance in `_realize_pnl`) are kept verbatim.
Timestamps carry no arithmetic weight in the engine, so the pandas
timestamps of the frame are abstracted to bar indices (`ℕ`).
The Decision Policy (`MomentumRotatorStrategy`, a pluggable black box per
the specification) is a parameter: a state type `σ` with the two entry
points the runner calls (`generate_signal` and `on_trade`).
-/

namespace Backtest

/-- Module constant `FEE_RATE = 0.001` (10 bps per side). -/
def FEE_RATE : ℚ := 0.001

/-- Module constant `EXECUTION_LAG = 1` (bars). -/
def EXECUTION_LAG : ℕ := 1

/-- Module constant `STARTING_CASH = 10_000.0`. -/
def STARTING_CASH : ℚ := 10000

/-- Module constant `REQUIRED_HISTORY = 200`. -/
def REQUIRED_HISTORY : ℕ := 200

/-- Actions a `Signal` can carry; anything other than buy/sell
(`"hold"`, etc.) is ignored by `_handle_signal`. -/
inductive Action where
  | buy
  | sell
  | hold
deriving DecidableEq, Repr

/-- Modelled from the spec: `Signal` comes from `strategy_interface`,
which is not among the sources; per the specification it carries an
action and a positive size (the free-form `reason` label is not
semantically interpreted by the engine and is dropped). -/
structure Signal where
  action : Action
  size : ℚ
deriving DecidableEq, Repr

/-- Modelled from the spec: `Portfolio` comes from `strategy_interface`,
which is not among the sources; per the specification it is
`{ cash, quantity }` with `value(price) = cash + quantity * price`. -/
structure Portfolio where
  cash : ℚ
  quantity : ℚ
deriving DecidableEq, Repr

/-- `Portfolio.value`: mark-to-market equity `cash + quantity * price`. -/
def Portfolio.value (p : Portfolio) (price : ℚ) : ℚ :=
  p.cash + p.quantity * price

/-- Modelled from the spec: `MarketSnapshot` comes from
`exchange_interface`, which is not among the sources; the runner
constructs it from the rolling price window, the current price and the
timestamp (the constant `symbol` string is dropped). -/
structure MarketSnapshot where
  prices : List ℚ
  current_price : ℚ
  timestamp : ℕ
deriving DecidableEq, Repr

/-- One purchase lot: the dict `{"size": ..., "price": ...}` kept in
`self.lots`. -/
structure Lot where
  size : ℚ
  price : ℚ
deriving DecidableEq, Repr

/-- The dict stored in `self.pending_order` by `_handle_signal`. -/
structure PendingOrder where
  action : Action
  size : ℚ
  execute_index : ℕ
  signal : Signal
deriving DecidableEq, Repr

/-- The `Trade` dataclass (constant `symbol` dropped, timestamp
abstracted to the bar index). -/
structure Trade where
  side : Action
  size : ℚ
  price : ℚ
  timestamp : ℕ
  pnl : ℚ
deriving DecidableEq, Repr

/-- The Decision Policy surface the runner uses: `generate_signal`
advances the policy's internal state and returns a `Signal`;
`on_trade signal price size ts` is the fill callback. -/
structure Strategy (σ : Type) where
  generate_signal : σ → MarketSnapshot → Portfolio → σ × Signal
  on_trade : σ → Signal → ℚ → ℚ → ℕ → σ

/-- The mutable state of a `MomentumBacktester` instance: portfolio,
at-most-one pending order, FIFO lot list, trade list, equity curve,
timestamps, and the policy's internal state. -/
structure BState (σ : Type) where
  portfolio : Portfolio
  pending_order : Option PendingOrder
  lots : List Lot
  trades : List Trade
  equity : List ℚ
  timestamps : List ℕ
  strat : σ

/-- The fresh state built by `MomentumBacktester.__init__`. -/
def init_state {σ : Type} (s0 : σ) : BState σ :=
  { portfolio := ⟨STARTING_CASH, 0⟩
    pending_order := none
    lots := []
    trades := []
    equity := []
    timestamps := []
    strat := s0 }

/-- The loop body of `_realize_pnl` (lines 180-192): walk the lots with
the remaining amount to consume; a lot is appended untouched once
`remaining <= 0`; a lot whose size is `<= remaining + 1e-12` closes
entirely; a larger lot is partially consumed and `remaining` becomes 0.
Returns the accumulated P&L and the new lot list. -/
def realize_loop (exit_price : ℚ) : List Lot → ℚ → ℚ × List Lot
  | [], _ => (0, [])
  | lot :: rest, remaining =>
    if remaining ≤ 0 then
      let r := realize_loop exit_price rest remaining
      (r.1, lot :: r.2)
    else if lot.size ≤ remaining + 1e-12 then
      let r := realize_loop exit_price rest (remaining - lot.size)
      ((exit_price - lot.price) * lot.size + r.1, r.2)
    else
      let r := realize_loop exit_price rest 0
      ((exit_price - lot.price) * remaining + r.1,
        Lot.mk (lot.size - remaining) lot.price :: r.2)

/-- `MomentumBacktester._realize_pnl` (lines 176-194): FIFO consumption
of `size` units at `exit_price`; returns the realized P&L and the lot
list that replaces `self.lots`. -/
def realize_pnl (lots : List Lot) (size : ℚ) (exit_price : ℚ) :
    ℚ × List Lot :=
  realize_loop exit_price lots size

/-- `MomentumBacktester._execute_buy` (lines 143-161). -/
def execute_buy {σ : Type} (strat : Strategy σ) (st : BState σ)
    (order : PendingOrder) (price : ℚ) (ts : ℕ) : BState σ :=
  let size := order.size
  if size ≤ 0 ∨ price ≤ 0 then st
  else
    let max_affordable := st.portfolio.cash / (price * (1 + FEE_RATE))
    let equity_before := st.portfolio.value price
    let max_notional := equity_before * 0.55
    let size_cap := if 0 < price then max_notional / price else 0
    let size := min size (min max_affordable size_cap)
    if size ≤ 0 then st
    else
      let cost := size * price
      let fee := cost * FEE_RATE
      let total := cost + fee
      let st :=
        { st with
          portfolio :=
            { cash := st.portfolio.cash - total
              quantity := st.portfolio.quantity + size }
          lots := st.lots ++ [Lot.mk size price] }
      { st with strat := strat.on_trade st.strat order.signal price size ts }

/-- `MomentumBacktester._execute_sell` (lines 163-174). -/
def execute_sell {σ : Type} (strat : Strategy σ) (st : BState σ)
    (order : PendingOrder) (price : ℚ) (ts : ℕ) : BState σ :=
  let size := min order.size st.portfolio.quantity
  if size ≤ 0 ∨ price ≤ 0 then st
  else
    let proceeds := size * price
    let fee := proceeds * FEE_RATE
    let st :=
      { st with
        portfolio :=
          { cash := st.portfolio.cash + (proceeds - fee)
            quantity := st.portfolio.quantity - size } }
    let r := realize_pnl st.lots size price
    let st :=
      { st with
        lots := r.2
        trades := st.trades ++ [Trade.mk Action.sell size price ts r.1] }
    { st with strat := strat.on_trade st.strat order.signal price size ts }

/-- `MomentumBacktester._handle_signal` (lines 118-129): ignore
non-buy/sell or non-positive sizes; drop the decision entirely when an
order is already pending; otherwise queue it for `idx + EXECUTION_LAG`. -/
def handle_signal {σ : Type} (st : BState σ) (idx : ℕ) (signal : Signal) :
    BState σ :=
  if (signal.action ≠ Action.buy ∧ signal.action ≠ Action.sell) ∨
      signal.size ≤ 0 then st
  else if st.pending_order.isSome then st
  else
    { st with
      pending_order :=
        some ⟨signal.action, signal.size, idx + EXECUTION_LAG, signal⟩ }

/-- `MomentumBacktester._maybe_execute_pending` (lines 131-141). -/
def maybe_execute_pending {σ : Type} (strat : Strategy σ) (st : BState σ)
    (idx : ℕ) (price : ℚ) (ts : ℕ) : BState σ :=
  match st.pending_order with
  | none => st
  | some order =>
    if idx < order.execute_index then st
    else
      let st := { st with pending_order := none }
      match order.action with
      | Action.buy => execute_buy strat st order price ts
      | _ => execute_sell strat st order price ts

/-- The slice `closes[start_idx : idx + 1]` with
`start_idx = max(0, idx - REQUIRED_HISTORY + 1)` (lines 92-93); in `ℕ`,
`idx + 1 - REQUIRED_HISTORY` equals `max 0 (idx - 199)`. -/
def history_at (closes : List ℚ) (idx : ℕ) : List ℚ :=
  let start_idx := idx + 1 - REQUIRED_HISTORY
  (closes.drop start_idx).take (idx + 1 - start_idx)

/-- One iteration of the `run` loop (lines 86-106): service the pending
order, build the snapshot from the rolling window, ask the policy for a
signal, handle it, and record equity and timestamp. -/
def step_bar {σ : Type} (strat : Strategy σ) (closes : List ℚ)
    (st : BState σ) (idx : ℕ) (price : ℚ) (ts : ℕ) : BState σ :=
  let st := maybe_execute_pending strat st idx price ts
  let history := history_at closes idx
  let gs := strat.generate_signal st.strat ⟨history, price, ts⟩ st.portfolio
  let st := { st with strat := gs.1 }
  let st := handle_signal st idx gs.2
  { st with
    equity := st.equity ++ [st.portfolio.value price]
    timestamps := st.timestamps ++ [ts] }

/-- The state after the whole `run` loop over the price series (the
frame's timestamps abstracted to bar indices). -/
def run_state {σ : Type} (strat : Strategy σ) (s0 : σ)
    (closes : List ℚ) : BState σ :=
  closes.enum.foldl (fun st p => step_bar strat closes st p.1 p.2 p.1)
    (init_state s0)

/-- One fold step of `_max_drawdown` (lines 201-204), carrying the
running peak (`none` plays the role of `-math.inf`) and the running
maximum drawdown. -/
def mdd_step (acc : Option ℚ × ℚ) (value : ℚ) : Option ℚ × ℚ :=
  let peak := match acc.1 with
    | none => value
    | some p => max p value
  let dd := if 0 < peak then (peak - value) / peak else 0
  (some peak, max acc.2 dd)

/-- `MomentumBacktester._max_drawdown` (lines 196-205): a single
left-to-right scan of the equity curve. -/
def max_drawdown (equity : List ℚ) : ℚ :=
  (equity.foldl mdd_step (none, 0)).2

/-- The `BacktestResult` dataclass (the pandas `equity_curve` series is
represented by the plain equity list). -/
structure BacktestResult where
  final_equity : ℚ
  total_return : ℚ
  max_drawdown : ℚ
  trades : List Trade
  equity_curve : List ℚ
deriving DecidableEq, Repr

/-- `MomentumBacktester.run` (lines 84-116): run the loop, then build
the result, defaulting `final_equity` to `STARTING_CASH` and
`total_return` to 0 when the equity list is empty. -/
def run {σ : Type} (strat : Strategy σ) (s0 : σ) (closes : List ℚ) :
    BacktestResult :=
  let final := run_state strat s0 closes
  { final_equity := match final.equity.getLast? with
      | some e => e
      | none => STARTING_CASH
    total_return := match final.equity.getLast? with
      | some e => e / STARTING_CASH - 1
      | none => 0
    max_drawdown := max_drawdown final.equity
    trades := final.trades
    equity_curve := final.equity }

/-- `_load_data` (lines 208-224): the `yfinance` download and pandas
column handling are external I/O; what the function guarantees is the
empty check, which raises `RuntimeError("No data returned ...")` —
modelled as `Except.error` on the downloaded close series. -/
def load_data (data : List ℚ) : Except String (List ℚ) :=
  if data.isEmpty then Except.error "No data returned" else Except.ok data

/-! ## Stub policies used to exercise the runner

The spec's own test plan feeds strategy stubs to the runner; these
instantiate the pluggable Decision Policy parameter. -/

/-- A policy that always holds. -/
def hold_strategy : Strategy Unit :=
  { generate_signal := fun s _ _ => (s, ⟨Action.hold, 0⟩)
    on_trade := fun s _ _ _ _ => s }

/-- The reference-scenario stub: decide a buy of 55 units at bar 0 (the
only bar whose window has length 1) and a full-exit sell at bar 2
(window length 3); hold otherwise. -/
def c6_strategy : Strategy Unit :=
  { generate_signal := fun s snap port =>
      (s, if snap.prices.length = 1 then ⟨Action.buy, 55⟩
          else if snap.prices.length = 3 then ⟨Action.sell, port.quantity⟩
          else ⟨Action.hold, 0⟩)
    on_trade := fun s _ _ _ _ => s }

/-- A stub that buys 1 unit at bar 0 and at bar 2 decides a sell of
`1 - 1/10^13` units — within the `1e-12` lot-matching tolerance of the
single open lot. -/
def c10_strategy : Strategy Unit :=
  { generate_signal := fun s snap _ =>
      (s, if snap.prices.length = 1 then ⟨Action.buy, 1⟩
          else if snap.prices.length = 3 then
            ⟨Action.sell, 1 - 1 / 10 ^ 13⟩
          else ⟨Action.hold, 0⟩)
    on_trade := fun s _ _ _ _ => s }

/-- Total size held in a list of lots. -/
def sum_sizes (lots : List Lot) : ℚ :=
  (lots.map Lot.size).sum

/-! ## Claim-side (specification) definitions -/

/-- FIFO consumption written from the (amended) claim's words: walk the
lots oldest-first while the remaining amount is positive; a lot whose
size is within the `1e-12` tolerance of the remaining amount closes
entirely; a larger lot is partially consumed and the loop terminates
with the rest of the queue untouched. -/
def fifo_spec (exit_price : ℚ) : List Lot → ℚ → ℚ × List Lot
  | [], _ => (0, [])
  | lot :: rest, remaining =>
    if remaining ≤ 0 then (0, lot :: rest)
    else if lot.size ≤ remaining + 1e-12 then
      let r := fifo_spec exit_price rest (remaining - lot.size)
      ((exit_price - lot.price) * lot.size + r.1, r.2)
    else
      ((exit_price - lot.price) * remaining,
        Lot.mk (lot.size - remaining) lot.price :: rest)

/-- The claim's per-bar drawdown at index `i`:
`(max(equity[0..i]) - equity[i]) / max(equity[0..i])` when the running
peak is positive, else 0. -/
def drawdown_at (equity : List ℚ) (i : ℕ) : ℚ :=
  match (equity.take (i + 1)).max? with
  | none => 0
  | some peak =>
    if 0 < peak then (peak - equity.getD i 0) / peak else 0

/-- The claim's max drawdown: the maximum of the per-bar drawdowns over
all indices (0 for an empty curve). -/
def max_drawdown_spec (equity : List ℚ) : ℚ :=
  ((List.range equity.length).map (drawdown_at equity)).foldr max 0

/-! ## Helper lemmas about FIFO lot consumption -/

/-- With nothing left to consume, the loop appends every lot untouched
and realizes no P&L. -/
theorem realize_loop_of_nonpos (p : ℚ) (lots : List Lot) (r : ℚ)
    (hr : r ≤ 0) : realize_loop p lots r = (0, lots) := by
  induction lots with
  | nil => rfl
  | cons lot rest ih => simp [realize_loop, hr, ih]

/-! ## Claim C2 — FIFO lot consumption -/

/-- C2, counterexample: the claim's exact-comparison FIFO rule fails on
the code. For the queue `[(1 + 1/10^13, 100)]` and a sell of `1` unit at
`120` (a size not exceeding the total lot size), the claim predicts a
partial consumption — P&L `(120 - 100) * 1` and remaining queue
`[(1/10^13, 100)]` — but `_realize_pnl` closes the whole lot because its
size is within the `1e-12` tolerance of the remaining amount, realizing
`(120 - 100) * (1 + 1/10^13)` and leaving an empty queue. -/
theorem c2_fifo_consumption_counterexample :
    (1 : ℚ) ≤ 1 + 1 / 10 ^ 13 ∧
    ¬ (realize_pnl [⟨1 + 1 / 10 ^ 13, 100⟩] 1 120 =
        ((120 - 100) * 1, [⟨(1 + 1 / 10 ^ 13) - 1, 100⟩])) := by
  constructor
  · norm_num
  · norm_num [realize_pnl, realize_loop]

/-- C2, amended: FIFO consumption walks the lots oldest-first with the
source's `1e-12` tolerance — a lot whose size is at most
`remaining + 1e-12` closes entirely, contributing
`(exit_price - lot.price) * lot.size`; a larger lot is partially
consumed, contributing `(exit_price - lot.price) * remaining`, its size
reduced by `remaining`, and the walk stops. In particular, for lots
`[(10, 100), (5, 110)]` and a sell of 12 at 120, the realized P&L is 220
and the remaining queue is exactly `[(3, 110)]`. -/
theorem c2_fifo_consumption :
    (∀ (lots : List Lot) (s p : ℚ), realize_pnl lots s p = fifo_spec p lots s) ∧
    realize_pnl [⟨10, 100⟩, ⟨5, 110⟩] 12 120 = (220, [⟨3, 110⟩]) := by
  constructor
  · intro lots s p
    unfold realize_pnl
    induction lots generalizing s with
    | nil => rfl
    | cons lot rest ih =>
      by_cases h0 : s ≤ 0
      · simp [realize_loop, fifo_spec, h0, realize_loop_of_nonpos p rest s h0]
      · by_cases h1 : lot.size ≤ s + 1e-12
        · simp [realize_loop, fifo_spec, h0, h1, ih]
        · simp [realize_loop, fifo_spec, h0, h1,
            realize_loop_of_nonpos p rest 0 le_rfl]
  · norm_num [realize_pnl, realize_loop]

/-! ## Claim C3 — buy execution: clamping, fee and lot creation -/

/-- C3: a buy that executes at price `P > 0` does so at the size `S`
that is the minimum of the requested size, the affordability cap
`cash / (P * (1 + FEE_RATE))` and the position-fraction cap
`0.55 * equity / P`; cash decreases by exactly `S * P * (1 + FEE_RATE)`,
quantity increases by exactly `S`, and one lot `(S, P)` is appended. -/
theorem c3_buy_execution {σ : Type} (strat : Strategy σ) (st : BState σ)
    (order : PendingOrder) (price : ℚ) (ts : ℕ) (S : ℚ)
    (hprice : 0 < price) (hsize : 0 < order.size)
    (hS : S = min order.size
      (min (st.portfolio.cash / (price * (1 + FEE_RATE)))
        (st.portfolio.value price * 0.55 / price)))
    (hSpos : 0 < S) :
    (execute_buy strat st order price ts).portfolio.cash =
        st.portfolio.cash - S * price * (1 + FEE_RATE) ∧
    (execute_buy strat st order price ts).portfolio.quantity =
        st.portfolio.quantity + S ∧
    (execute_buy strat st order price ts).lots =
        st.lots ++ [Lot.mk S price] := by
  subst hS
  have h1 : ¬ (order.size ≤ 0 ∨ price ≤ 0) := by
    push_neg
    exact ⟨hsize, hprice⟩
  unfold execute_buy
  simp only [if_pos hprice, if_neg h1, if_neg (not_le.mpr hSpos)]
  exact ⟨by ring, trivial, trivial⟩

/-- A concrete queued buy order: 55 units, scheduled for bar 1. -/
def c3_order : PendingOrder := ⟨Action.buy, 55, 1, ⟨Action.buy, 55⟩⟩

/-- C3, witness: on the fresh portfolio (cash 10000), a queued buy of 55
units at price 100 executes at size 55 — none of the caps bind — and the
stated cash/quantity/lot effects hold. -/
theorem c3_buy_execution_witness :
    (execute_buy hold_strategy (init_state ()) c3_order 100 1).portfolio.cash =
        10000 - 55 * 100 * (1 + FEE_RATE) ∧
    (execute_buy hold_strategy (init_state ()) c3_order 100 1).portfolio.quantity =
        0 + 55 ∧
    (execute_buy hold_strategy (init_state ()) c3_order 100 1).lots =
        [] ++ [Lot.mk 55 100] := by
  have h := c3_buy_execution hold_strategy (init_state ()) c3_order 100 1 55
    (by norm_num) (by norm_num [c3_order])
    (by norm_num [c3_order, init_state, Portfolio.value, STARTING_CASH, FEE_RATE])
    (by norm_num)
  exact h

/-! ## Claim C4 — at-most-one-in-flight: later decisions are dropped -/

/-- C4: while an order is pending, `_handle_signal` drops any further
decision entirely — the state (pending order, portfolio, lots, trades,
everything) is returned unchanged. -/
theorem c4_decision_dropped_while_pending {σ : Type} (st : BState σ)
    (idx : ℕ) (signal : Signal) (o : PendingOrder)
    (h : st.pending_order = some o) :
    handle_signal st idx signal = st := by
  by_cases hv : (signal.action ≠ Action.buy ∧ signal.action ≠ Action.sell) ∨
      signal.size ≤ 0
  · simp [handle_signal, hv]
  · simp [handle_signal, hv, h]

/-- A state with one order already queued. -/
def c4_state : BState Unit :=
  { init_state () with pending_order := some c3_order }

/-- C4, witness: with an order queued, a subsequent sell decision of
size 5 leaves the state exactly as it was. -/
theorem c4_decision_dropped_while_pending_witness :
    handle_signal c4_state 3 ⟨Action.sell, 5⟩ = c4_state :=
  c4_decision_dropped_while_pending c4_state 3 ⟨Action.sell, 5⟩ c3_order rfl

/-! ## Helper lemmas: execution never touches the order slot -/

/-- `_execute_buy` never modifies `pending_order`. -/
theorem execute_buy_pending {σ : Type} (strat : Strategy σ) (st : BState σ)
    (order : PendingOrder) (price : ℚ) (ts : ℕ) :
    (execute_buy strat st order price ts).pending_order = st.pending_order := by
  simp only [execute_buy]
  repeat' split
  all_goals rfl

/-- `_execute_sell` never modifies `pending_order`. -/
theorem execute_sell_pending {σ : Type} (strat : Strategy σ) (st : BState σ)
    (order : PendingOrder) (price : ℚ) (ts : ℕ) :
    (execute_sell strat st order price ts).pending_order = st.pending_order := by
  simp only [execute_sell]
  repeat' split
  all_goals rfl

/-! ## Claim C1 — per-bar ordering and the causality of the window -/

/-- C1: (1) after `_maybe_execute_pending` runs at bar `idx` — i.e. at
the moment `step_bar` hands the state to the Decision Policy — any order
still pending has a scheduled index strictly greater than `idx`, so
every order whose scheduled index is `≤ idx` has already been executed;
(2) the window handed to the policy at bar `idx` is exactly the suffix
`closes[max(0, idx-199) .. idx]` of the first `idx + 1` prices; (3) every
element of that window occurs in `closes` at an index `≤ idx` — the
policy never sees price `idx + 1` or later. -/
theorem c1_causality_and_order_service {σ : Type} (strat : Strategy σ)
    (st : BState σ) (idx : ℕ) (price : ℚ) (ts : ℕ) (closes : List ℚ) :
    (∀ o, (maybe_execute_pending strat st idx price ts).pending_order = some o →
      idx < o.execute_index) ∧
    history_at closes idx =
      (closes.take (idx + 1)).drop (idx + 1 - REQUIRED_HISTORY) ∧
    (∀ x ∈ history_at closes idx,
      ∃ j, j ≤ idx ∧ j < closes.length ∧ closes.getD j 0 = x) := by
  refine ⟨?_, ?_, ?_⟩
  · intro o ho
    unfold maybe_execute_pending at ho
    split at ho
    · rename_i heq
      rw [heq] at ho
      exact Option.noConfusion ho
    · rename_i order heq
      split at ho
      · rename_i hlt
        rw [heq] at ho
        obtain rfl : order = o := by injection ho
        exact hlt
      · cases hact : order.action
        all_goals rw [hact] at ho
        · rw [execute_buy_pending] at ho
          exact Option.noConfusion ho
        all_goals rw [execute_sell_pending] at ho
        all_goals exact Option.noConfusion ho
  · unfold history_at
    rw [List.drop_take]
  · intro x hx
    unfold history_at at hx
    have hx' : x ∈ (closes.drop (idx + 1 - REQUIRED_HISTORY)).take
        (idx + 1 - (idx + 1 - REQUIRED_HISTORY)) := hx
    rw [← List.drop_take] at hx'
    have hxt : x ∈ closes.take (idx + 1) := List.mem_of_mem_drop hx'
    obtain ⟨j, hj, hval⟩ := List.getElem_of_mem hxt
    have hjlen : j < closes.length := by
      have := hj
      rw [List.length_take] at this
      exact lt_of_lt_of_le this (min_le_right _ _)
    have hjidx : j ≤ idx := by
      have := hj
      rw [List.length_take] at this
      have h2 : j < idx + 1 := lt_of_lt_of_le this (min_le_left _ _)
      omega
    refine ⟨j, hjidx, hjlen, ?_⟩
    rw [List.getD_eq_getElem _ _ hjlen, ← hval, List.getElem_take]

/-- A state whose pending order is scheduled for bar 5. -/
def c1_state : BState Unit :=
  { init_state () with pending_order := some ⟨Action.buy, 2, 5, ⟨Action.buy, 2⟩⟩ }

/-- C1, witness: at bar 2 an order scheduled for bar 5 is still pending
and indeed `2 < 5`; the window over `[1, 2, 3, 4]` at bar 2 is
`[1, 2, 3]`; and the window element `3` occurs at an index `≤ 2`. -/
theorem c1_causality_and_order_service_witness :
    (2 : ℕ) < 5 ∧
    history_at [1, 2, 3, 4] 2 = [1, 2, 3] ∧
    (∃ j, j ≤ 2 ∧ j < ([1, 2, 3, 4] : List ℚ).length ∧
      ([1, 2, 3, 4] : List ℚ).getD j 0 = 3) := by
  obtain ⟨h1, h2, h3⟩ :=
    c1_causality_and_order_service hold_strategy c1_state 2 100 2
      ([1, 2, 3, 4] : List ℚ)
  refine ⟨h1 _ rfl, ?_, ?_⟩
  · rw [h2]
    rfl
  · refine h3 3 ?_
    rw [h2]
    norm_num [REQUIRED_HISTORY]

/-! ## Claim C5 — max drawdown equals the spec's running-peak maximum -/

/-- The first component of the `_max_drawdown` fold is the running
maximum of the values seen so far. -/
theorem mdd_fst (t : List ℚ) (p m : ℚ) :
    (t.foldl mdd_step (some p, m)).1 = some (t.foldl max p) := by
  induction t generalizing p m with
  | nil => rfl
  | cons x xs ih => simpa [mdd_step] using ih (max p x) _

/-- Folding `max` from a larger seed pulls the extra element out. -/
theorem foldr_max_init (xs : List ℚ) (a b : ℚ) :
    xs.foldr max (max a b) = max (xs.foldr max a) b := by
  induction xs with
  | nil => rfl
  | cons x xs ih => simp [ih, max_assoc]

/-- Appending a bar does not change earlier per-bar drawdowns. -/
theorem drawdown_at_append (l : List ℚ) (v : ℚ) (i : ℕ) (h : i < l.length) :
    drawdown_at (l ++ [v]) i = drawdown_at l i := by
  unfold drawdown_at
  rw [List.take_append_of_le_length h, List.getD_append _ _ _ _ h]

/-- The per-bar drawdown of the appended bar reads the whole curve's
peak and the new value. -/
theorem drawdown_at_last (l : List ℚ) (v : ℚ) :
    drawdown_at (l ++ [v]) l.length =
      match (l ++ [v]).max? with
      | none => 0
      | some peak => if 0 < peak then (peak - v) / peak else 0 := by
  unfold drawdown_at
  rw [List.take_of_length_le (by simp), List.getD_append_right _ _ _ _ le_rfl]
  simp

/-- The spec-side maximum over one more bar splits off the last bar. -/
theorem max_drawdown_spec_append (l : List ℚ) (v : ℚ) :
    max_drawdown_spec (l ++ [v]) =
      max (max_drawdown_spec l) (drawdown_at (l ++ [v]) l.length) := by
  have hmap : List.map (drawdown_at (l ++ [v])) (List.range l.length) =
      List.map (drawdown_at l) (List.range l.length) := by
    apply List.map_congr_left
    intro i hi
    exact drawdown_at_append l v i (List.mem_range.mp hi)
  unfold max_drawdown_spec
  rw [List.length_append, List.length_singleton, List.range_succ,
    List.map_append, List.foldr_append, hmap]
  simp only [List.map_cons, List.map_nil, List.foldr_cons, List.foldr_nil]
  rw [max_comm (drawdown_at (l ++ [v]) l.length) 0, foldr_max_init]

/-- C5: the single left-to-right scan of `_max_drawdown` computes, for
every equity curve, exactly the claim's value — the maximum over all
indices `i` of `(max(equity[0..i]) - equity[i]) / max(equity[0..i])`,
with a per-bar drawdown of 0 whenever the running peak is not positive,
and 0 for an empty curve. -/
theorem c5_max_drawdown_correct (equity : List ℚ) :
    max_drawdown equity = max_drawdown_spec equity := by
  induction equity using List.reverseRecOn with
  | nil => rfl
  | append_singleton l v ih =>
    rw [max_drawdown_spec_append, ← ih]
    unfold max_drawdown
    rw [List.foldl_append]
    cases l with
    | nil =>
      simp [mdd_step, max_drawdown, drawdown_at, sub_self, zero_div]
    | cons h t =>
      have hfst : (List.foldl mdd_step (none, 0) (h :: t)).1 =
          some (t.foldl max h) := by
        have h2 : List.foldl mdd_step (none, 0) (h :: t) =
            List.foldl mdd_step (some h, 0) t := by
          simp [mdd_step, sub_self, zero_div]
        rw [h2, mdd_fst]
      have hmax : (h :: t ++ [v]).max? = some (max (t.foldl max h) v) := by
        show some ((t ++ [v]).foldl max h) = _
        rw [List.foldl_append]
        rfl
      rw [drawdown_at_last, hmax]
      show (mdd_step (List.foldl mdd_step (none, 0) (h :: t)) v).2 = _
      simp only [mdd_step, hfst]

/-! ## Claim C9 â portfolio non-negativity -/
/-- An executed buy keeps cash and quantity non-negative: the executed
size is clamped to the affordability cap `cash / (price * (1 + FEE_RATE))`,
so the debit never exceeds cash. -/
theorem execute_buy_inv {σ : Type} (strat : Strategy σ) (st : BState σ)
    (order : PendingOrder) (price : ℚ) (ts : ℕ)
    (h : 0 ≤ st.portfolio.cash ∧ 0 ≤ st.portfolio.quantity) :
    0 ≤ (execute_buy strat st order price ts).portfolio.cash ∧
    0 ≤ (execute_buy strat st order price ts).portfolio.quantity := by
  by_cases h1 : order.size ≤ 0 ∨ price ≤ 0
  · simp only [execute_buy, if_pos h1]
    exact h
  · have h1' := h1
    push_neg at h1'
    obtain ⟨hsz, hpr⟩ := h1'
    simp only [execute_buy, if_neg h1, if_pos hpr]
    set S := min order.size
      (min (st.portfolio.cash / (price * (1 + FEE_RATE)))
        (st.portfolio.value price * 0.55 / price)) with hS
    by_cases h2 : S ≤ 0
    · rw [if_pos h2]
      exact h
    · rw [if_neg h2]
      push_neg at h2
      constructor
      · have hden : 0 < price * (1 + FEE_RATE) := by
          have : (0 : ℚ) < 1 + FEE_RATE := by norm_num [FEE_RATE]
          positivity
        have hle : S ≤ st.portfolio.cash / (price * (1 + FEE_RATE)) :=
          le_trans (min_le_right _ _) (min_le_left _ _)
        have := (le_div_iff₀ hden).mp hle
        simp only
        nlinarith [this]
      · simp only
        linarith [h.2, le_of_lt h2]

/-- An executed sell keeps cash and quantity non-negative: the size is
clamped to the held quantity, and the credit `size * price * (1 - FEE_RATE)`
is non-negative. -/
theorem execute_sell_inv {σ : Type} (strat : Strategy σ) (st : BState σ)
    (order : PendingOrder) (price : ℚ) (ts : ℕ)
    (h : 0 ≤ st.portfolio.cash ∧ 0 ≤ st.portfolio.quantity) :
    0 ≤ (execute_sell strat st order price ts).portfolio.cash ∧
    0 ≤ (execute_sell strat st order price ts).portfolio.quantity := by
  by_cases h1 : min order.size st.portfolio.quantity ≤ 0 ∨ price ≤ 0
  · simp only [execute_sell, if_pos h1]
    exact h
  · have h1' := h1
    push_neg at h1'
    obtain ⟨hsz, hpr⟩ := h1'
    simp only [execute_sell, if_neg h1]
    constructor
    · have hfee : (FEE_RATE : ℚ) < 1 := by norm_num [FEE_RATE]
      have hS : 0 < min order.size st.portfolio.quantity := hsz
      nlinarith [h.1, mul_pos hS hpr]
    · have : min order.size st.portfolio.quantity ≤ st.portfolio.quantity :=
        min_le_right _ _
      linarith

/-- `_handle_signal` never touches the portfolio. -/
theorem handle_signal_portfolio {σ : Type} (st : BState σ) (idx : ℕ)
    (signal : Signal) :
    (handle_signal st idx signal).portfolio = st.portfolio := by
  simp only [handle_signal]
  repeat' split
  all_goals rfl

/-- Servicing the pending order preserves portfolio non-negativity. -/
theorem maybe_execute_pending_inv {σ : Type} (strat : Strategy σ)
    (st : BState σ) (idx : ℕ) (price : ℚ) (ts : ℕ)
    (h : 0 ≤ st.portfolio.cash ∧ 0 ≤ st.portfolio.quantity) :
    0 ≤ (maybe_execute_pending strat st idx price ts).portfolio.cash ∧
    0 ≤ (maybe_execute_pending strat st idx price ts).portfolio.quantity := by
  unfold maybe_execute_pending
  split
  · exact h
  · split
    · exact h
    · split
      · exact execute_buy_inv _ _ _ _ _ h
      · exact execute_sell_inv _ _ _ _ _ h

/-- One bar of the run loop preserves portfolio non-negativity. -/
theorem step_bar_inv {σ : Type} (strat : Strategy σ) (closes : List ℚ)
    (st : BState σ) (idx : ℕ) (price : ℚ) (ts : ℕ)
    (h : 0 ≤ st.portfolio.cash ∧ 0 ≤ st.portfolio.quantity) :
    0 ≤ (step_bar strat closes st idx price ts).portfolio.cash ∧
    0 ≤ (step_bar strat closes st idx price ts).portfolio.quantity := by
  unfold step_bar
  simp only [handle_signal_portfolio]
  exact maybe_execute_pending_inv strat st idx price ts h

/-- Any number of bars of the run loop preserves portfolio
non-negativity. -/
theorem run_fold_inv {σ : Type} (strat : Strategy σ) (closes : List ℚ)
    (bars : List (ℕ × ℚ)) (st : BState σ)
    (h : 0 ≤ st.portfolio.cash ∧ 0 ≤ st.portfolio.quantity) :
    0 ≤ (bars.foldl (fun st p => step_bar strat closes st p.1 p.2 p.1)
        st).portfolio.cash ∧
    0 ≤ (bars.foldl (fun st p => step_bar strat closes st p.1 p.2 p.1)
        st).portfolio.quantity := by
  induction bars generalizing st with
  | nil => exact h
  | cons b bs ih =>
    exact ih _ (step_bar_inv strat closes st b.1 b.2 b.1 h)

/-- C9: under exact rational arithmetic, every executed buy and every
executed sell preserves `cash >= 0` and `quantity >= 0`, and consequently,
starting from `cash = STARTING_CASH` and `quantity = 0`, the portfolio
satisfies both bounds after every prefix of the run loop, for every
policy and every price series. -/
theorem c9_portfolio_nonneg :
    (∀ (σ : Type) (strat : Strategy σ) (st : BState σ) (order : PendingOrder)
      (price : ℚ) (ts : ℕ),
      0 ≤ st.portfolio.cash ∧ 0 ≤ st.portfolio.quantity →
      0 ≤ (execute_buy strat st order price ts).portfolio.cash ∧
      0 ≤ (execute_buy strat st order price ts).portfolio.quantity) ∧
    (∀ (σ : Type) (strat : Strategy σ) (st : BState σ) (order : PendingOrder)
      (price : ℚ) (ts : ℕ),
      0 ≤ st.portfolio.cash ∧ 0 ≤ st.portfolio.quantity →
      0 ≤ (execute_sell strat st order price ts).portfolio.cash ∧
      0 ≤ (execute_sell strat st order price ts).portfolio.quantity) ∧
    (∀ (σ : Type) (strat : Strategy σ) (s0 : σ) (closes : List ℚ) (n : ℕ),
      0 ≤ ((closes.enum.take n).foldl
          (fun st p => step_bar strat closes st p.1 p.2 p.1)
          (init_state s0)).portfolio.cash ∧
      0 ≤ ((closes.enum.take n).foldl
          (fun st p => step_bar strat closes st p.1 p.2 p.1)
          (init_state s0)).portfolio.quantity) := by
  refine ⟨fun σ strat st o p ts h => execute_buy_inv strat st o p ts h,
    fun σ strat st o p ts h => execute_sell_inv strat st o p ts h,
    fun σ strat s0 closes n => ?_⟩
  apply run_fold_inv
  constructor
  · norm_num [init_state, STARTING_CASH]
  · norm_num [init_state]

/-- C9, witness: the concrete buy of 55 units at price 100 from the
fresh portfolio leaves non-negative cash and quantity. -/
theorem c9_portfolio_nonneg_witness :
    0 ≤ (execute_buy hold_strategy (init_state ()) c3_order 100 1).portfolio.cash ∧
    0 ≤ (execute_buy hold_strategy (init_state ()) c3_order 100 1).portfolio.quantity :=
  c9_portfolio_nonneg.1 Unit hold_strategy (init_state ()) c3_order 100 1
    (by norm_num [init_state, STARTING_CASH])

/-! ## Claim C10 â lot-size sum versus held quantity -/

/-- Unfolding `sum_sizes` over a cons. -/
theorem sum_sizes_cons (l : Lot) (ls : List Lot) :
    sum_sizes (l :: ls) = l.size + sum_sizes ls := by
  simp [sum_sizes]

/-- FIFO consumption keeps every remaining lot's size positive when the
input lots are positive (a partially consumed lot keeps more than the
`1e-12` tolerance). -/
theorem realize_loop_pos (p : ℚ) (lots : List Lot) (r : ℚ)
    (h : ∀ l ∈ lots, 0 < l.size) :
    ∀ l ∈ (realize_loop p lots r).2, 0 < l.size := by
  induction lots generalizing r with
  | nil => intro l hl; simp [realize_loop] at hl
  | cons lot rest ih =>
    intro l hl
    by_cases h0 : r ≤ 0
    · rw [realize_loop, if_pos h0] at hl
      rcases List.mem_cons.mp hl with rfl | hl'
      · exact h l (List.mem_cons_self _ _)
      · exact ih _ (fun x hx => h x (List.mem_cons_of_mem _ hx)) l hl'
    · by_cases h1 : lot.size ≤ r + 1e-12
      · rw [realize_loop, if_neg h0, if_pos h1] at hl
        exact ih _ (fun x hx => h x (List.mem_cons_of_mem _ hx)) l hl
      · rw [realize_loop, if_neg h0, if_neg h1,
          realize_loop_of_nonpos p rest 0 le_rfl] at hl
        rcases List.mem_cons.mp hl with rfl | hl'
        · push_neg at h0 h1
          simp only [Lot.mk.injEq]
          norm_num
          nlinarith
        · exact h l (List.mem_cons_of_mem _ hl')

/-- FIFO consumption removes at least `min remaining (total size)` from
the queue (the tolerance can only make it remove more). -/
theorem realize_loop_consumed (p : ℚ) (lots : List Lot) (r : ℚ) :
    min r (sum_sizes lots) ≤
      sum_sizes lots - sum_sizes (realize_loop p lots r).2 := by
  induction lots generalizing r with
  | nil => simp [realize_loop, sum_sizes]
  | cons lot rest ih =>
    by_cases h0 : r ≤ 0
    · rw [realize_loop, if_pos h0, realize_loop_of_nonpos p rest r h0]
      have : min r (sum_sizes (lot :: rest)) ≤ r := min_le_left _ _
      simp only
      linarith
    · by_cases h1 : lot.size ≤ r + 1e-12
      · rw [realize_loop, if_neg h0, if_pos h1]
        have hih := ih (r - lot.size)
        have hr : r = lot.size + (r - lot.size) := by ring
        have hmin : min r (sum_sizes (lot :: rest)) =
            lot.size + min (r - lot.size) (sum_sizes rest) := by
          rw [sum_sizes_cons]
          nth_rewrite 1 [hr]
          rw [min_add_add_left]
        rw [hmin, sum_sizes_cons]
        simp only
        linarith
      · rw [realize_loop, if_neg h0, if_neg h1,
          realize_loop_of_nonpos p rest 0 le_rfl]
        simp only [sum_sizes_cons]
        have : min r (lot.size + sum_sizes rest) ≤ r := min_le_left _ _
        linarith

/-- Unfolding `sum_sizes` over an appended lot. -/
theorem sum_sizes_append_one (ls : List Lot) (l : Lot) :
    sum_sizes (ls ++ [l]) = sum_sizes ls + l.size := by
  simp [sum_sizes]

/-- An executed buy preserves lot positivity and keeps the lot-size sum
bounded by the held quantity (both grow by the executed size). -/
theorem execute_buy_lots_inv {σ : Type} (strat : Strategy σ) (st : BState σ)
    (order : PendingOrder) (price : ℚ) (ts : ℕ)
    (h1 : ∀ l ∈ st.lots, 0 < l.size)
    (h2 : sum_sizes st.lots ≤ st.portfolio.quantity) :
    (∀ l ∈ (execute_buy strat st order price ts).lots, 0 < l.size) ∧
    sum_sizes (execute_buy strat st order price ts).lots ≤
      (execute_buy strat st order price ts).portfolio.quantity := by
  by_cases hc1 : order.size ≤ 0 ∨ price ≤ 0
  · simp only [execute_buy, if_pos hc1]
    exact ⟨h1, h2⟩
  · have hpr : 0 < price := by
      rcases not_or.mp hc1 with ⟨_, hp⟩
      exact not_le.mp hp
    simp only [execute_buy, if_neg hc1, if_pos hpr]
    set S := min order.size
      (min (st.portfolio.cash / (price * (1 + FEE_RATE)))
        (st.portfolio.value price * 0.55 / price)) with hS
    by_cases hc2 : S ≤ 0
    · rw [if_pos hc2]
      exact ⟨h1, h2⟩
    · rw [if_neg hc2]
      push_neg at hc2
      constructor
      · intro l hl
        rcases List.mem_append.mp hl with hl' | hl'
        · exact h1 l hl'
        · rcases List.mem_singleton.mp hl' with rfl
          exact hc2
      · rw [sum_sizes_append_one]
        simp only
        linarith

/-- An executed buy preserves exact equality between the lot-size sum
and the held quantity. -/
theorem execute_buy_sum_eq {σ : Type} (strat : Strategy σ) (st : BState σ)
    (order : PendingOrder) (price : ℚ) (ts : ℕ)
    (h : sum_sizes st.lots = st.portfolio.quantity) :
    sum_sizes (execute_buy strat st order price ts).lots =
      (execute_buy strat st order price ts).portfolio.quantity := by
  by_cases hc1 : order.size ≤ 0 ∨ price ≤ 0
  · simp only [execute_buy, if_pos hc1]
    exact h
  · have hpr : 0 < price := by
      rcases not_or.mp hc1 with ⟨_, hp⟩
      exact not_le.mp hp
    simp only [execute_buy, if_neg hc1, if_pos hpr]
    set S := min order.size
      (min (st.portfolio.cash / (price * (1 + FEE_RATE)))
        (st.portfolio.value price * 0.55 / price)) with hS
    by_cases hc2 : S ≤ 0
    · rw [if_pos hc2]
      exact h
    · rw [if_neg hc2, sum_sizes_append_one]
      simp only
      linarith

/-- An executed sell preserves lot positivity and the bound
`sum of lot sizes <= quantity` (it may consume up to `1e-12` more than
the sold size, never less than it). -/
theorem execute_sell_lots_inv {σ : Type} (strat : Strategy σ) (st : BState σ)
    (order : PendingOrder) (price : ℚ) (ts : ℕ)
    (h1 : ∀ l ∈ st.lots, 0 < l.size)
    (h2 : sum_sizes st.lots ≤ st.portfolio.quantity) :
    (∀ l ∈ (execute_sell strat st order price ts).lots, 0 < l.size) ∧
    sum_sizes (execute_sell strat st order price ts).lots ≤
      (execute_sell strat st order price ts).portfolio.quantity := by
  by_cases hc1 : min order.size st.portfolio.quantity ≤ 0 ∨ price ≤ 0
  · simp only [execute_sell, if_pos hc1]
    exact ⟨h1, h2⟩
  · simp only [execute_sell, if_neg hc1]
    constructor
    · exact realize_loop_pos price st.lots _ h1
    · have hcons := realize_loop_consumed price st.lots
        (min order.size st.portfolio.quantity)
      have hq : min order.size st.portfolio.quantity ≤
          st.portfolio.quantity := min_le_right _ _
      rcases le_total (min order.size st.portfolio.quantity)
          (sum_sizes st.lots) with hle | hle
      · rw [min_eq_left hle] at hcons
        simp only [realize_pnl]
        linarith
      · rw [min_eq_right hle] at hcons
        simp only [realize_pnl]
        linarith

/-- `_handle_signal` never touches the lot list. -/
theorem handle_signal_lots {σ : Type} (st : BState σ) (idx : ℕ)
    (signal : Signal) : (handle_signal st idx signal).lots = st.lots := by
  simp only [handle_signal]
  repeat' split
  all_goals rfl

/-- Servicing the pending order preserves the lot invariants. -/
theorem maybe_execute_pending_lots_inv {σ : Type} (strat : Strategy σ)
    (st : BState σ) (idx : ℕ) (price : ℚ) (ts : ℕ)
    (h1 : ∀ l ∈ st.lots, 0 < l.size)
    (h2 : sum_sizes st.lots ≤ st.portfolio.quantity) :
    (∀ l ∈ (maybe_execute_pending strat st idx price ts).lots, 0 < l.size) ∧
    sum_sizes (maybe_execute_pending strat st idx price ts).lots ≤
      (maybe_execute_pending strat st idx price ts).portfolio.quantity := by
  unfold maybe_execute_pending
  split
  · exact ⟨h1, h2⟩
  · split
    · exact ⟨h1, h2⟩
    · split
      · exact execute_buy_lots_inv _ _ _ _ _ h1 h2
      · exact execute_sell_lots_inv _ _ _ _ _ h1 h2

/-- One bar of the run loop preserves the lot invariants. -/
theorem step_bar_lots_inv {σ : Type} (strat : Strategy σ) (closes : List ℚ)
    (st : BState σ) (idx : ℕ) (price : ℚ) (ts : ℕ)
    (h1 : ∀ l ∈ st.lots, 0 < l.size)
    (h2 : sum_sizes st.lots ≤ st.portfolio.quantity) :
    (∀ l ∈ (step_bar strat closes st idx price ts).lots, 0 < l.size) ∧
    sum_sizes (step_bar strat closes st idx price ts).lots ≤
      (step_bar strat closes st idx price ts).portfolio.quantity := by
  unfold step_bar
  simp only [handle_signal_lots, handle_signal_portfolio]
  exact maybe_execute_pending_lots_inv strat st idx price ts h1 h2

/-- Any number of bars of the run loop preserves the lot invariants. -/
theorem run_fold_lots_inv {σ : Type} (strat : Strategy σ) (closes : List ℚ)
    (bars : List (ℕ × ℚ)) (st : BState σ)
    (h1 : ∀ l ∈ st.lots, 0 < l.size)
    (h2 : sum_sizes st.lots ≤ st.portfolio.quantity) :
    (∀ l ∈ (bars.foldl (fun st p => step_bar strat closes st p.1 p.2 p.1)
        st).lots, 0 < l.size) ∧
    sum_sizes (bars.foldl (fun st p => step_bar strat closes st p.1 p.2 p.1)
        st).lots ≤
      (bars.foldl (fun st p => step_bar strat closes st p.1 p.2 p.1)
        st).portfolio.quantity := by
  induction bars generalizing st with
  | nil => exact ⟨h1, h2⟩
  | cons b bs ih =>
    obtain ⟨g1, g2⟩ := step_bar_lots_inv strat closes st b.1 b.2 b.1 h1 h2
    exact ih _ g1 g2

/-- C10, amended: every executed buy preserves exact equality between
the sum of lot sizes and `portfolio.quantity`, and along every run the
sum of lot sizes never exceeds `portfolio.quantity`; exact equality
after every executed sell does not hold (see the counterexample),
because a sell may close a lot up to `1e-12` larger than the amount
remaining to consume. -/
theorem c10_lot_sum_tracks_quantity :
    (∀ (σ : Type) (strat : Strategy σ) (st : BState σ) (order : PendingOrder)
      (price : ℚ) (ts : ℕ),
      sum_sizes st.lots = st.portfolio.quantity →
      sum_sizes (execute_buy strat st order price ts).lots =
        (execute_buy strat st order price ts).portfolio.quantity) ∧
    (∀ (σ : Type) (strat : Strategy σ) (s0 : σ) (closes : List ℚ) (n : ℕ),
      sum_sizes ((closes.enum.take n).foldl
          (fun st p => step_bar strat closes st p.1 p.2 p.1)
          (init_state s0)).lots ≤
        ((closes.enum.take n).foldl
          (fun st p => step_bar strat closes st p.1 p.2 p.1)
          (init_state s0)).portfolio.quantity) := by
  refine ⟨fun σ strat st o p ts h => execute_buy_sum_eq strat st o p ts h,
    fun σ strat s0 closes n => ?_⟩
  refine (run_fold_lots_inv strat closes _ _ ?_ ?_).2
  · intro l hl
    simp [init_state] at hl
  · simp [init_state, sum_sizes]

set_option maxHeartbeats 4000000
set_option maxRecDepth 4000

/-- C10, counterexample: the claimed exact equality fails. Buying 1 unit
at 100 and then selling `1 - 1/10^13` units leaves
`quantity = 1/10^13 > 0` while the lot queue is empty (the single lot of
size 1 lies within the `1e-12` tolerance of the sell amount and is
consumed whole), so the sum of lot sizes differs from the quantity. -/
theorem c10_lot_sum_equality_counterexample :
    sum_sizes (run_state c10_strategy () [100, 100, 110, 90, 90]).lots ≠
      (run_state c10_strategy () [100, 100, 110, 90, 90]).portfolio.quantity := by
  have : (run_state c10_strategy () [100, 100, 110, 90, 90]).lots = [] ∧
      (run_state c10_strategy () [100, 100, 110, 90, 90]).portfolio.quantity =
        1 / 10 ^ 13 := by
    norm_num [run_state, step_bar, maybe_execute_pending, handle_signal,
      execute_buy, execute_sell, realize_pnl, realize_loop, history_at,
      init_state, c10_strategy, Portfolio.value, FEE_RATE, EXECUTION_LAG,
      STARTING_CASH, REQUIRED_HISTORY, List.enum]
  rw [this.1, this.2]
  norm_num [sum_sizes]

/-- C10, witness: a buy of 55 units from the fresh (empty-lot) state
keeps the lot-size sum equal to the held quantity. -/
theorem c10_lot_sum_tracks_quantity_witness :
    sum_sizes (execute_buy hold_strategy (init_state ()) c3_order 100 1).lots =
      (execute_buy hold_strategy (init_state ()) c3_order 100 1).portfolio.quantity :=
  c10_lot_sum_tracks_quantity.1 Unit hold_strategy (init_state ()) c3_order 100 1
    (by norm_num [init_state, sum_sizes])

/-! ## Claims C6, C7, C8 â scenario P&L, oversized requests, empty series -/

set_option maxHeartbeats 4000000
set_option maxRecDepth 4000

/-- C6, counterexample: in the reference scenario (prices
`[100, 100, 110, 90, 90]`, buy decided at bar 0 filling at bar 1's price
100, full-exit sell decided at bar 2 filling at bar 3's price 90) the
single recorded trade carries `realized_pnl = -550 = 55 * (90 - 100)`
with no fee deduction, which differs from the claimed
`55 * (90 - 100)` minus the fees (`-560.45`). -/
theorem c6_trade_pnl_counterexample :
    (run c6_strategy () [100, 100, 110, 90, 90]).trades =
      [Trade.mk Action.sell 55 90 3 (-550)] ∧
    (-550 : ℚ) ≠ 55 * ((90 : ℚ) - 100) -
      (55 * 100 * FEE_RATE + 55 * 90 * FEE_RATE) := by
  constructor
  · norm_num [run, run_state, step_bar, maybe_execute_pending, handle_signal,
      execute_buy, execute_sell, realize_pnl, realize_loop, history_at,
      init_state, c6_strategy, Portfolio.value, FEE_RATE, EXECUTION_LAG,
      STARTING_CASH, REQUIRED_HISTORY, List.enum]
  · norm_num [FEE_RATE]

/-- C6, amended: in the reference scenario the realized P&L recorded on
the resulting trade equals `size * (90 - 100)` exactly; the fees affect
cash only, not the recorded `realized_pnl`. -/
theorem c6_trade_pnl :
    ((run c6_strategy () [100, 100, 110, 90, 90]).trades.map Trade.pnl) =
      [55 * ((90 : ℚ) - 100)] := by
  norm_num [run, run_state, step_bar, maybe_execute_pending, handle_signal,
    execute_buy, execute_sell, realize_pnl, realize_loop, history_at,
    init_state, c6_strategy, Portfolio.value, FEE_RATE, EXECUTION_LAG,
    STARTING_CASH, REQUIRED_HISTORY, List.enum]

/-- A state holding 3 units (one lot), no cash. -/
def c7_state : BState Unit :=
  { init_state () with portfolio := ⟨0, 3⟩, lots := [⟨3, 100⟩] }

/-- A queued sell of 5 units, more than the 3 units held. -/
def c7_order : PendingOrder := ⟨Action.sell, 5, 1, ⟨Action.sell, 5⟩⟩

/-- C7, counterexample: no error is raised. A sell of 5 units against a
holding of 3 proceeds (quantity goes to 0 and a trade is recorded), and
a lot consumption of 12 units against a single 10-unit lot returns
normally with the P&L of the available 10 units and an empty queue. -/
theorem c7_no_error_counterexample :
    (execute_sell hold_strategy c7_state c7_order 100 1).portfolio.quantity = 0 ∧
    (execute_sell hold_strategy c7_state c7_order 100 1).trades.length = 1 ∧
    realize_pnl [⟨10, 100⟩] 12 120 = (200, []) := by
  refine ⟨?_, ?_, ?_⟩
  · norm_num [execute_sell, c7_state, c7_order, init_state, realize_pnl,
      realize_loop, FEE_RATE]
  · norm_num [execute_sell, c7_state, c7_order, init_state, realize_pnl,
      realize_loop, FEE_RATE]
  · norm_num [realize_pnl, realize_loop]

/-- A list of positive-size lots has non-negative total size. -/
theorem sum_sizes_nonneg (lots : List Lot) (h : ∀ l ∈ lots, 0 < l.size) :
    0 ≤ sum_sizes lots := by
  induction lots with
  | nil => simp [sum_sizes]
  | cons lot rest ih =>
    rw [sum_sizes_cons]
    have h1 := h lot (List.mem_cons_self _ _)
    have h2 := ih (fun x hx => h x (List.mem_cons_of_mem _ hx))
    linarith

/-- When the amount to consume is at least the total lot size, the loop
closes every lot, realizing `(p - lot.price) * lot.size` for each. -/
theorem realize_loop_total (p : ℚ) (lots : List Lot) (r : ℚ)
    (hpos : ∀ l ∈ lots, 0 < l.size) (hr : sum_sizes lots ≤ r) :
    realize_loop p lots r =
      ((lots.map (fun l => (p - l.price) * l.size)).sum, []) := by
  induction lots generalizing r with
  | nil => simp [realize_loop]
  | cons lot rest ih =>
    have hlot := hpos lot (List.mem_cons_self _ _)
    have hrest : ∀ l ∈ rest, 0 < l.size :=
      fun x hx => hpos x (List.mem_cons_of_mem _ hx)
    have hsum := sum_sizes_nonneg rest hrest
    rw [sum_sizes_cons] at hr
    have h0 : ¬ r ≤ 0 := by linarith
    have h1 : lot.size ≤ r + 1e-12 := by
      have : (0 : ℚ) ≤ 1e-12 := by norm_num
      linarith
    rw [realize_loop, if_neg h0, if_pos h1, ih (r - lot.size) hrest (by linarith)]
    simp

/-- C7, amended: an oversized sell is clamped to the held quantity and
proceeds without error — quantity goes to 0 and cash is credited
`quantity * price * (1 - FEE_RATE)`; an oversized lot consumption
consumes all lots and returns the P&L over the available size only,
without error. -/
theorem c7_oversized_requests_clamped :
    (∀ (σ : Type) (strat : Strategy σ) (st : BState σ) (order : PendingOrder)
      (price : ℚ) (ts : ℕ),
      st.portfolio.quantity ≤ order.size →
      0 < st.portfolio.quantity → 0 < price →
      (execute_sell strat st order price ts).portfolio.quantity = 0 ∧
      (execute_sell strat st order price ts).portfolio.cash =
        st.portfolio.cash + st.portfolio.quantity * price * (1 - FEE_RATE)) ∧
    (∀ (lots : List Lot) (s p : ℚ), (∀ l ∈ lots, 0 < l.size) →
      sum_sizes lots ≤ s →
      realize_pnl lots s p =
        ((lots.map (fun l => (p - l.price) * l.size)).sum, [])) := by
  constructor
  · intro σ strat st order price ts hover hq hp
    have hmin : min order.size st.portfolio.quantity = st.portfolio.quantity :=
      min_eq_right hover
    have hc : ¬ (st.portfolio.quantity ≤ 0 ∨ price ≤ 0) := by
      push_neg
      exact ⟨hq, hp⟩
    simp only [execute_sell, hmin, if_neg hc]
    constructor
    · ring
    · ring
  · intro lots s p hpos hr
    exact realize_loop_total p lots s hpos hr

/-- C7, witness: the concrete oversized sell (5 requested, 3 held) is
clamped to 3 and credits `3 * 100 * (1 - FEE_RATE)`. -/
theorem c7_oversized_requests_clamped_witness :
    (execute_sell hold_strategy c7_state c7_order 100 1).portfolio.quantity = 0 ∧
    (execute_sell hold_strategy c7_state c7_order 100 1).portfolio.cash =
      0 + 3 * 100 * (1 - FEE_RATE) := by
  have h := c7_oversized_requests_clamped.1 Unit hold_strategy c7_state c7_order 100 1
    (by norm_num [c7_state, c7_order, init_state])
    (by norm_num [c7_state, init_state]) (by norm_num)
  exact h

/-- C8, counterexample: on an empty price series `run` does not fail; it
returns exactly the default-built result the claim rules out:
`final_equity = STARTING_CASH`, `total_return = 0`, no trades. -/
theorem c8_empty_series_counterexample :
    (run hold_strategy () []).final_equity = STARTING_CASH ∧
    (run hold_strategy () []).total_return = 0 ∧
    (run hold_strategy () []).trades = [] := by
  exact ⟨rfl, rfl, rfl⟩

/-- C8, amended: only the data loader fails fast on an empty download
(`RuntimeError`, modelled as `Except.error`); the Runner itself, given
an empty price series, silently returns the default-built result. -/
theorem c8_empty_series_behavior :
    load_data ([] : List ℚ) = Except.error "No data returned" ∧
    (run hold_strategy () []).final_equity = STARTING_CASH ∧
    (run hold_strategy () []).max_drawdown = 0 ∧
    (run hold_strategy () []).equity_curve = [] := by
  exact ⟨rfl, rfl, rfl, rfl⟩

end Backtest
